import Mathlib

/-
Verification development for the Antler Hub scraping pipeline of this
repository.  The two scripts under verification are
src/scripts/scrape_antler_candidates.py (full crawl pass) and
src/scripts/scrape_phone.py (targeted phone rescan pass).

The browser, the HTML parser and the regular-expression engine are external
collaborators; their observable answers (element texts, regex match lists,
attribute values) are modelled as fields of the input structures.  The MongoDB
collection is modelled as a keyed store with upsert and set-merge semantics.
The extraction timestamp (datetime.now) is modelled as an explicit Nat
parameter.  All control flow of the scripts themselves is translated
faithfully, including the places where an exception escapes.
-/

/-- Candidate dictionary built by the extractors (scrape_antler_candidates.py,
extract_full_candidate_info, lines 405-509, and the name-only fallback at
lines 377-389).  Keys the Python code always sets are plain fields; keys that
are set conditionally are Option, with none meaning the key is absent from
the dict. -/
structure Cand where
  name : String
  scraped_at : Nat
  source : String
  tagline : Option String := none
  location : Option String := none
  status : Option String := none
  about_me : Option String := none
  skills : Option (List String) := none
  phone : Option String := none
  avatar_url : Option String := none
  antler_cofounder_type : Option (List String) := none
  categories : Option (List String) := none
deriving DecidableEq

/-- Document held in the MongoDB users collection.  Every field is Option
because a stored document only has the keys that some write has set. -/
@[ext]
structure Doc where
  name : Option String := none
  scraped_at : Option Nat := none
  source : Option String := none
  tagline : Option String := none
  location : Option String := none
  status : Option String := none
  about_me : Option String := none
  skills : Option (List String) := none
  phone : Option String := none
  avatar_url : Option String := none
  antler_cofounder_type : Option (List String) := none
  categories : Option (List String) := none
deriving DecidableEq

/-- Document with no keys. -/
def emptyDoc : Doc := {}

/-- The MongoDB users collection.  Candidate records are addressed by name
(the unique index created in setup_mongodb, line 117); keys lists the names
present, in insertion order, so that the row count of the store is the length
of keys. -/
@[ext]
structure Store where
  keys : List String
  docs : String → Option Doc

/-- Store with no documents at all. -/
def emptyStore : Store := { keys := [], docs := fun _ => none }

/-- MongoDB update_one with a top-level dollar-set document: every key present
in the candidate dict is written over the stored document, keys absent from
the dict are left alone (scrape_antler_candidates.py, save_candidates,
lines 582-592). -/
def mergeDoc (d : Doc) (c : Cand) : Doc :=
  { name := some c.name
    scraped_at := some c.scraped_at
    source := some c.source
    tagline := c.tagline.orElse fun _ => d.tagline
    location := c.location.orElse fun _ => d.location
    status := c.status.orElse fun _ => d.status
    about_me := c.about_me.orElse fun _ => d.about_me
    skills := c.skills.orElse fun _ => d.skills
    phone := c.phone.orElse fun _ => d.phone
    avatar_url := c.avatar_url.orElse fun _ => d.avatar_url
    antler_cofounder_type := c.antler_cofounder_type.orElse fun _ => d.antler_cofounder_type
    categories := c.categories.orElse fun _ => d.categories }

/-- Upsert of one candidate by name: match-or-create followed by a set-merge
(scrape_antler_candidates.py, save_candidates, lines 588-592; the
antler_profile_url branch at lines 581-586 is dead for this extractor because
extract_full_candidate_info never sets that key). -/
def upsertByName (s : Store) (c : Cand) : Store :=
  { keys := if c.name ∈ s.keys then s.keys else s.keys ++ [c.name]
    docs := fun k =>
      if k = c.name then some (mergeDoc ((s.docs c.name).getD emptyDoc) c)
      else s.docs k }

/-- save_candidates (scrape_antler_candidates.py, lines 563-605): upsert each
record of the batch, in order. -/
def save_candidates (cs : List Cand) (s : Store) : Store :=
  cs.foldl upsertByName s

/-- Python str.strip: drop leading and trailing whitespace.  Implemented
over the character list so that it evaluates by kernel reduction. -/
def pyStrip (s : String) : String :=
  String.mk (((s.data.dropWhile Char.isWhitespace).reverse.dropWhile Char.isWhitespace).reverse)

/-- Python str.replace of the tel prefix pattern by the empty string:
remove every non-overlapping occurrence of the four characters t e l colon,
scanning left to right (scrape_phone.py, line 447). -/
def dropTelPrefix : List Char → List Char
  | 't' :: 'e' :: 'l' :: ':' :: rest => dropTelPrefix rest
  | c :: rest => c :: dropTelPrefix rest
  | [] => []

/-- Substring test over character lists (the XPath contains function over
attribute and text values). -/
def hasSubList (pat : List Char) : List Char → Bool
  | [] => pat.isEmpty
  | c :: rest => pat.isPrefixOf (c :: rest) || hasSubList pat rest

/-- Stored phone value of a name: the phone key of the document found by
name, if the document and the key both exist (the value of
existing_candidate.get of phone in both scripts). -/
def phoneOf (s : Store) (nm : String) : Option String :=
  (s.docs nm).bind Doc.phone

/-- Truthiness of the stored phone value for a name, as tested by
extract_full_candidate_info at line 462: the document exists, has a phone
key, and its value is a non-empty string. -/
def phoneTruthy (s : Store) (nm : String) : Bool :=
  match phoneOf s nm with
  | some p => p != ""
  | none => false

/-- Skip test of the phone rescan (scrape_phone.py, line 634): the document
exists, has a truthy phone value, and that value is still truthy after
stripping whitespace. -/
def phoneNonBlank (s : Store) (nm : String) : Bool :=
  match phoneOf s nm with
  | some p => p != "" && pyStrip p != ""
  | none => false

/-- Parsed contact markup as seen by extract_phone_from_soup
(scrape_phone.py, lines 428-451).  regexMatches is the list returned by
phone_pattern.findall over the text of the document, in order; telHrefs is
the list of href values of anchors whose href matches the tel prefix
pattern, in order.  The regex engine and the parser are external, so their
answers are the inputs of the model. -/
structure Soup where
  regexMatches : List String := []
  telHrefs : List String := []
deriving DecidableEq

/-- Number of decimal digit characters of a string, as computed by stripping
all non-digits (scrape_phone.py, line 439). -/
def digitCount (s : String) : Nat :=
  (s.toList.filter Char.isDigit).length

/-- extract_phone_from_soup (scrape_phone.py, lines 428-451): return the
first regex match carrying at least seven digits; otherwise fall back to the
first tel anchor whose href, with the tel prefix removed and whitespace
stripped, is non-empty; otherwise nothing. -/
def extract_phone_from_soup (soup : Soup) : Option String :=
  match soup.regexMatches.find? (fun m => 7 ≤ digitCount m) with
  | some m => some m
  | none =>
    soup.telHrefs.findSome? fun h =>
      let p := pyStrip (String.mk (dropTelPrefix h.data))
      if p = "" then none else some p

/-- One rendered profile container as observed through the parser by
extract_full_candidate_info (scrape_antler_candidates.py, lines 405-509).
Each Option field is the stripped text of the corresponding first selector
match (none = selector found nothing); the list fields are the stripped
texts of all matches of the repeating selectors, in document order.
allElems pairs the text of each generic text-bearing element with a flag
saying whether its parent carries the skills-list class. -/
structure Container where
  nameText : Option String := none
  tagline : Option String := none
  location : Option String := none
  statusPrimary : Option String := none
  statusAlt : Option String := none
  aboutMe : Option String := none
  skillTexts : List String := []
  avatarImgSrc : Option String := none
  typeTexts : List String := []
  allElems : List (String × Bool) := []
  categoryDivTexts : List (Option String) := []
deriving DecidableEq

/-- Section-header literals filtered out of skills and categories
(scrape_antler_candidates.py, lines 450 and 504). -/
def sectionHeaders : List String :=
  ["Technology", "Technical Software", "Domain", "Business"]

/-- Fixed cofounder-type vocabulary (scrape_antler_candidates.py, lines 478
and 486). -/
def antlerVocab : List String := ["Technology", "Business", "Domain"]

/-- Cofounder-type extraction (scrape_antler_candidates.py, lines 470-494).
Strategy one keeps the vocabulary matches of the dedicated selector;
strategy two, tried only when strategy one found nothing, keeps vocabulary
matches of generic elements whose parent is not the skills list.  The
accumulated set is emitted sorted; since every member is drawn from the
three-word vocabulary, the sorted set is the alphabetical vocabulary list
restricted to the words found. -/
def cofounderTypesOf (c : Container) : Option (List String) :=
  let strat1 := c.typeTexts.filter fun t => antlerVocab.contains t
  let raw :=
    if strat1.isEmpty then
      (c.allElems.filter fun e => antlerVocab.contains e.1 && !e.2).map Prod.fst
    else strat1
  if raw.isEmpty then none
  else some (["Business", "Domain", "Technology"].filter fun v => raw.contains v)

/-- Category extraction (scrape_antler_candidates.py, lines 496-507): per
category div, the text of its inner tag if present, filtered against the
section-header literals. -/
def categoriesOf (c : Container) : Option (List String) :=
  let cats := (c.categoryDivTexts.filterMap id).filter fun t => !sectionHeaders.contains t
  if cats.isEmpty then none else some cats

/-- The candidate dict assembled by extract_full_candidate_info once the name
key exists (scrape_antler_candidates.py, lines 415-507).  hasPhone is the
truthiness of the stored phone for this name: when it holds, the phone key is
left out of the dict; otherwise the phone key is set to the empty string
(lines 461-463). -/
def buildCand (c : Container) (nm : String) (now : Nat) (hasPhone : Bool) : Cand :=
  { name := nm
    scraped_at := now
    source := "antler_hub"
    tagline := c.tagline
    location := c.location
    status := c.statusPrimary.orElse fun _ => c.statusAlt
    about_me := c.aboutMe
    skills :=
      (let f := c.skillTexts.filter fun t => !sectionHeaders.contains t
       if f.isEmpty then none else some f)
    phone := if hasPhone then none else some ""
    avatar_url := c.avatarImgSrc
    antler_cofounder_type := cofounderTypesOf c
    categories := categoriesOf c }

/-- Error escaping extract_full_candidate_info: the dict lookup of the name
key at line 459 raises KeyError when no name element was found, because the
antler_profile_url branch of line 456 is never taken. -/
inductive ExtractErr where
  | keyErrorName
deriving DecidableEq

/-- extract_full_candidate_info (scrape_antler_candidates.py, lines 405-509).
With no name element the store lookup at line 459 accesses the missing name
key and raises; with a name element the full dict is built, and returned
only when the name text is non-empty (line 509). -/
def extract_full_candidate_info (c : Container) (now : Nat) (s : Store) :
    Except ExtractErr (Option Cand) :=
  match c.nameText with
  | none => .error .keyErrorName
  | some nm => .ok (if nm = "" then none else some (buildCand c nm now (phoneTruthy s nm)))

/-- Name-only fallback record (scrape_antler_candidates.py, lines 383-389). -/
def fallbackCand (t : String) (now : Nat) : Cand :=
  { name := t, scraped_at := now, source := "antler_hub" }

/-- Per-page duplicate removal (scrape_antler_candidates.py, lines 391-399):
keep a record only when its name is non-empty and not seen before on this
page. -/
def dedupByName : List Cand → List String → List Cand
  | [], _ => []
  | c :: cs, seen =>
    if c.name ≠ "" ∧ c.name ∉ seen then c :: dedupByName cs (seen ++ [c.name])
    else dedupByName cs seen

/-- The container loop of scrape_current_page (scrape_antler_candidates.py,
lines 371-374): extract each container in order, keep the records whose name
is truthy, propagate the first escaping exception. -/
def extractContainers (cs : List Container) (now : Nat) (s : Store) :
    Except ExtractErr (List Cand) :=
  match cs with
  | [] => .ok []
  | c :: rest =>
    match extract_full_candidate_info c now s with
    | .error e => .error e
    | .ok r =>
      match extractContainers rest now s with
      | .error e => .error e
      | .ok more =>
        .ok (match r with
          | some cand => cand :: more
          | none => more)

/-- One rendered listing page: the profile containers, and the page-wide name
element texts used by the name-only fallback. -/
structure PageHtml where
  containers : List Container := []
  nameTexts : List String := []
deriving DecidableEq

/-- Candidate list of one page before duplicate removal
(scrape_antler_candidates.py, lines 359-389): container extraction, then the
name-only fallback when the container pass produced nothing. -/
def pageCandidates (pg : PageHtml) (now : Nat) (s : Store) :
    Except ExtractErr (List Cand) :=
  match extractContainers pg.containers now s with
  | .error e => .error e
  | .ok base =>
    .ok (if base.isEmpty then pg.nameTexts.map (fun t => fallbackCand t now) else base)

/-- scrape_current_page (scrape_antler_candidates.py, lines 352-403):
extraction, fallback, then duplicate removal by name keeping the first
occurrence. -/
def scrape_current_page (pg : PageHtml) (now : Nat) (s : Store) :
    Except ExtractErr (List Cand) :=
  match pageCandidates pg now s with
  | .error e => .error e
  | .ok cands => .ok (dedupByName cands [])

/-- The page loop of scrape (scrape_antler_candidates.py, lines 624-640):
the pages actually rendered during the run are the input; their records are
accumulated in order, and an escaping exception aborts the run before any
write. -/
def extractAllPages (pages : List PageHtml) (now : Nat) (s : Store) :
    Except ExtractErr (List Cand) :=
  match pages with
  | [] => .ok []
  | pg :: rest =>
    match scrape_current_page pg now s with
    | .error e => .error e
    | .ok cs =>
      match extractAllPages rest now s with
      | .error e => .error e
      | .ok more => .ok (cs ++ more)

/-- Store after one full crawl pass (scrape_antler_candidates.py, scrape,
lines 607-655): all pages are extracted against the store as it was at the
start of the pass, then the accumulated batch is saved in one final
save_candidates call; an exception escaping extraction reaches the top-level
handler before any write, leaving the store untouched. -/
def fullCrawlStore (pages : List PageHtml) (now : Nat) (s : Store) : Store :=
  match extractAllPages pages now s with
  | .error _ => s
  | .ok rs => save_candidates rs s

/-- One rendered profile container as seen by the phone rescan
(scrape_phone.py, scrape_current_page_phones, lines 616-667).  nameText is
the raw text of the name element when one exists; hasContactBtn says whether
the contact-info button lookup at line 643 succeeds, soupClicked is the
parsed container markup after the reveal click, soupPlain the parsed markup
of the direct-extraction fallback. -/
structure RContainer where
  nameText : Option String := none
  hasContactBtn : Bool := false
  soupClicked : Soup := {}
  soupPlain : Soup := {}
deriving DecidableEq

/-- extract_phone_from_container as used by the rescan loop: the container
markup it parses is the revealed markup when the contact button was clicked,
the plain markup otherwise (scrape_phone.py, lines 410-417 and 642-661). -/
def extract_phone_from_container (c : RContainer) : Option String :=
  extract_phone_from_soup (if c.hasContactBtn then c.soupClicked else c.soupPlain)

/-- Observable events of one rescan run, in order: container outcomes during
page processing, and store writes during the final result loop. -/
inductive REvent where
  | processed (name phone : String)
  | skippedPhone (name : String)
  | skippedTest
  | nameError
  | wrote (name phone : String)
deriving DecidableEq

/-- Name normalisation of the rescan loop (scrape_phone.py, lines 620-625):
strip the element text, then rewrite the self-view rendering of one known
candidate to his stored name. -/
def normalizeName (raw : String) : String :=
  if pyStrip raw = "Michiel(you)" then "Michiel Voortman" else pyStrip raw

/-- Outcome of one container in the rescan loop. -/
inductive StepResult where
  | res (name phone : String)
  | skipPhone (name : String)
  | skipTest
  | err
deriving DecidableEq

/-- One iteration of the container loop of scrape_current_page_phones
(scrape_phone.py, lines 616-667): a missing name element raises inside the
loop and the container is skipped; the test account is skipped; a name whose
stored phone is non-blank is skipped; otherwise a phone is extracted, with
the empty string standing for no phone found. -/
def rescanContainerStep (s : Store) (c : RContainer) : StepResult :=
  match c.nameText with
  | none => .err
  | some raw =>
    if normalizeName raw = "Chris (Test) Klam" then .skipTest
    else if phoneNonBlank s (normalizeName raw) then .skipPhone (normalizeName raw)
    else .res (normalizeName raw) ((extract_phone_from_container c).getD "")

/-- scrape_current_page_phones (scrape_phone.py, lines 603-674): run the
container loop in order, accumulating results for the processed candidates
and an event per container.  No store write happens here. -/
def scrape_current_page_phones (s : Store) :
    List RContainer → List (String × String) × List REvent
  | [] => ([], [])
  | c :: cs =>
    let rest := scrape_current_page_phones s cs
    match rescanContainerStep s c with
    | .res nm ph => ((nm, ph) :: rest.1, .processed nm ph :: rest.2)
    | .skipPhone nm => (rest.1, .skippedPhone nm :: rest.2)
    | .skipTest => (rest.1, .skippedTest :: rest.2)
    | .err => (rest.1, .nameError :: rest.2)

/-- update_candidate_phone (scrape_phone.py, lines 584-601): when saving is
enabled, set the phone key of the document found for this candidate; a dry
run leaves the store untouched. -/
def update_candidate_phone (save : Bool) (s : Store) (nm ph : String) : Store :=
  if save then
    { keys := s.keys
      docs := fun k =>
        if k = nm then (s.docs k).map fun d => { d with phone := some ph }
        else s.docs k }
  else s

/-- The result loop of scrape_phones (scrape_phone.py, lines 717-732): after
all pages are processed, walk the accumulated results in order; when saving
is enabled, look the candidate up by name and update its phone. -/
def writePhase (save : Bool) : List (String × String) → Store → Store × List REvent
  | [], s => (s, [])
  | (nm, ph) :: rs, s =>
    if save then
      match s.docs nm with
      | some _ =>
        let rest := writePhase save rs (update_candidate_phone save s nm ph)
        (rest.1, .wrote nm ph :: rest.2)
      | none => writePhase save rs s
    else writePhase save rs s

/-- The page loop of scrape_phones (scrape_phone.py, lines 693-711): process
each rendered page against the store as it was at the start of the run,
accumulating results and events in order. -/
def rescanPages (s : Store) : List (List RContainer) → List (String × String) × List REvent
  | [] => ([], [])
  | pg :: rest =>
    let pr := scrape_current_page_phones s pg
    let more := rescanPages s rest
    (pr.1 ++ more.1, pr.2 ++ more.2)

/-- scrape_phones (scrape_phone.py, lines 676-760): page processing first,
accumulating all results, then the result loop which is the only place that
writes to the store. -/
def scrape_phones (save : Bool) (pages : List (List RContainer)) (s : Store) :
    Store × List REvent :=
  let pr := rescanPages s pages
  let w := writePhase save pr.1 s
  (w.1, pr.2 ++ w.2)

/-- Event classifiers used to state ordering properties of rescan traces. -/
def isProcessedEvent : REvent → Bool
  | .processed _ _ => true
  | _ => false

/-- True exactly on store-write events. -/
def isWroteEvent : REvent → Bool
  | .wrote _ _ => true
  | _ => false

/-- True exactly on a store write of the given candidate name. -/
def isWriteForName (nm : String) : REvent → Bool
  | .wrote n _ => n == nm
  | _ => false

/-- Name carried by an event, empty for the anonymous ones. -/
def eventName : REvent → String
  | .processed n _ => n
  | .skippedPhone n => n
  | .wrote n _ => n
  | _ => ""

/-- The per-candidate immediate-write discipline claimed for the rescan: any
two processed candidates have a store write of the earlier one strictly
between them. -/
@[reducible]
def writesImmediately (tr : List REvent) : Prop :=
  ∀ i j : Fin tr.length, i.val < j.val →
    isProcessedEvent (tr.get i) = true → isProcessedEvent (tr.get j) = true →
    ∃ k : Fin tr.length, i.val < k.val ∧ k.val < j.val ∧
      isWriteForName (eventName (tr.get i)) (tr.get k) = true

/-- One pagination control as observed through the driver: the texts of its
descendant div elements, its first text node, its class attribute, its
aria-label, and its enabled and displayed states. -/
structure PageButton where
  descDivTexts : List String := []
  textNode : String := ""
  className : String := ""
  ariaLabel : String := ""
  enabled : Bool := true
  displayed : Bool := true
deriving DecidableEq

/-- Substring test (the XPath contains function over attribute and text
values). -/
def hasSubstr (s pat : String) : Bool :=
  hasSubList pat.data s.data

/-- A control that is both enabled and displayed. -/
def actionable (b : PageButton) : Bool :=
  b.enabled && b.displayed

/-- The find-elements-then-click loops of both pagination functions: walk
the matched controls in order and click the first actionable one. -/
def findFirstActionable : List PageButton → Option PageButton
  | [] => none
  | b :: bs => if actionable b then some b else findFirstActionable bs

/-- Generic pagination marker of strategy three
(scrape_antler_candidates.py, line 546): class contains pagination,
aria-label contains next, or class contains next. -/
def isGenericNextMarker (b : PageButton) : Bool :=
  hasSubstr b.className "pagination" || hasSubstr b.ariaLabel "next" ||
    hasSubstr b.className "next"

/-- Fall-through of the full-crawl pagination once strategy one did not
click: strategy two over the text-contains matches, then strategy three over
the generic markers (scrape_antler_candidates.py, lines 532-554). -/
def navStrategy23 (t : String) (ps : List PageButton) : Option PageButton :=
  match findFirstActionable (ps.filter fun b => hasSubstr b.textNode t) with
  | some b => some b
  | none => findFirstActionable (ps.filter isGenericNextMarker)

/-- navigate_to_next_page (scrape_antler_candidates.py, lines 511-561).  The
target is the literal page two regardless of the requested page: strategy one
takes the first control with a descendant div whose text is exactly 2 and
clicks it only if actionable, otherwise control falls through to strategy two
and strategy three.  The returned value is the clicked control; none reports
failure. -/
def navigate_to_next_page (ps : List PageButton) : Option PageButton :=
  match ps.find? (fun b => b.descDivTexts.contains "2") with
  | some b => if actionable b then some b else navStrategy23 "2" ps
  | none => navStrategy23 "2" ps

/-- Fall-through of the rescan pagination once strategy one did not click:
strategy two over the text-contains matches, and nothing after it
(scrape_phone.py, lines 563-578). -/
def navPageFallback (t : String) (ps : List PageButton) : Bool × Option PageButton :=
  match findFirstActionable (ps.filter fun b => hasSubstr b.textNode t) with
  | some b => (true, some b)
  | none => (false, none)

/-- navigate_to_page (scrape_phone.py, lines 533-582).  Page one reports
success without clicking; otherwise strategy one for the requested page
number, falling through to strategy two, and no third strategy.  The result
is the success flag paired with the clicked control. -/
def navigate_to_page (n : Nat) (ps : List PageButton) : Bool × Option PageButton :=
  if n = 1 then (true, none)
  else
    match ps.find? (fun b => b.descDivTexts.contains (toString n)) with
    | some b => if actionable b then (true, some b) else navPageFallback (toString n) ps
    | none => navPageFallback (toString n) ps

/-- Strategy one as the claim states it: the first control whose descendant
div text is exactly the target, provided it is actionable. -/
def firstExactActionable (t : String) (ps : List PageButton) : Option PageButton :=
  (ps.find? fun b => b.descDivTexts.contains t).bind fun b =>
    if actionable b then some b else none

/-- Strategy two as the claim states it: the first actionable control whose
text contains the target. -/
def firstContainsActionable (t : String) (ps : List PageButton) : Option PageButton :=
  ps.find? fun b => hasSubstr b.textNode t && actionable b

/-- Strategy three as the claim states it: the first actionable control
carrying a generic pagination marker. -/
def firstGenericActionable (ps : List PageButton) : Option PageButton :=
  ps.find? fun b => isGenericNextMarker b && actionable b

/-- How a run of either script ends before control returns to main. -/
inductive RunOutcome where
  | completed
  | fatalError
  | interrupted
deriving DecidableEq

/-- Process exit code and whether a stack trace reaches the user. -/
structure ExitBehavior where
  code : Nat
  stackTrace : Bool
deriving DecidableEq

/-- main of scrape_antler_candidates.py (lines 667-684): normal completion
falls off the end of main with exit code zero; an unhandled exception is
caught, printed without a trace, and exits one; a keyboard interrupt is
caught, printed without a trace, and falls off the end of main with exit
code zero. -/
def antler_main (o : RunOutcome) : ExitBehavior :=
  match o with
  | .completed => { code := 0, stackTrace := false }
  | .fatalError => { code := 1, stackTrace := false }
  | .interrupted => { code := 0, stackTrace := false }

/-- main of scrape_phone.py (lines 772-803): identical exception routing. -/
def phone_main (o : RunOutcome) : ExitBehavior :=
  match o with
  | .completed => { code := 0, stackTrace := false }
  | .fatalError => { code := 1, stackTrace := false }
  | .interrupted => { code := 0, stackTrace := false }

/-- Container with no name element at all (the failing input of the KeyError
path, scrape_antler_candidates.py line 459). -/
def noNameContainer : Container := {}

/-- Store holding one candidate whose phone value is a single space: a
non-empty string that is blank after stripping. -/
def eveStore : Store :=
  { keys := ["Eve"], docs := fun k => if k = "Eve" then some { name := some "Eve", phone := some " " } else none }

/-- Rescan container for that candidate whose markup yields no phone. -/
def eveContainer : RContainer := { nameText := some "Eve" }

/-- Stored document with a well-formed non-empty phone. -/
def adaDoc : Doc := { name := some "Ada", phone := some "+1-555-0100" }

/-- Store holding that document. -/
def adaStore : Store :=
  { keys := ["Ada"], docs := fun k => if k = "Ada" then some adaDoc else none }

/-- Crawl page rendering that candidate once. -/
def adaPage : PageHtml :=
  { containers := [{ nameText := some "Ada", skillTexts := ["Engineering"] }] }

/-- Rescan container for that candidate, with no phone in the markup. -/
def adaRescanContainer : RContainer := { nameText := some "Ada" }

/-- Container for a candidate absent from the store. -/
def bobContainer : Container := { nameText := some "Bob" }

/-- Store holding two phone-less candidates. -/
def annBobStore : Store :=
  { keys := ["Ann", "Bob"],
    docs := fun k => if k = "Ann" ∨ k = "Bob" then some { name := some k } else none }

/-- Rescan container whose markup yields a phone for the first candidate. -/
def annContainer : RContainer :=
  { nameText := some "Ann", soupPlain := { regexMatches := ["5551234567"] } }

/-- Rescan container whose markup yields a phone for the second candidate. -/
def bobRescanContainer : RContainer :=
  { nameText := some "Bob", soupPlain := { regexMatches := ["5559876543"] } }

/-- Event trace of a saving rescan run over one page with those two
candidates. -/
def annBobTrace : List REvent :=
  (scrape_phones true [[annContainer, bobRescanContainer]] annBobStore).2

/-- Store holding one phone-less candidate. -/
def willaStore : Store :=
  { keys := ["Willa"], docs := fun k => if k = "Willa" then some { name := some "Willa" } else none }

/-- Rescan container whose markup yields a phone for that candidate. -/
def willaContainer : RContainer :=
  { nameText := some "Willa", soupPlain := { regexMatches := ["5550001111"] } }

/-- An enabled, displayed control carrying only generic pagination markers:
no digit anywhere in its texts. -/
def genericNextButton : PageButton :=
  { textNode := ">>", className := "pagination-next", ariaLabel := "go to next page" }

/-- An enabled, displayed control whose descendant div text is exactly 2. -/
def exactTwoButton : PageButton := { descDivTexts := ["2"], textNode := "2" }

/-- Page whose containers match nothing and whose name-only fallback yields
two name elements with empty text. -/
def emptyNamesPage : PageHtml := { nameTexts := ["", ""] }

/-- Page rendering the same profile twice (the observed site quirk). -/
def adaDupPage : PageHtml :=
  { containers :=
      [{ nameText := some "Ada", skillTexts := ["Engineering", "Technology"] },
       { nameText := some "Ada", tagline := some "duplicate render" }] }

/-- Container whose skill list is the worked example of the specification. -/
def pythonSkillsContainer : Container :=
  { nameText := some "Ada Lovelace", skillTexts := ["Python", "Technology", "Fundraising"] }

/-- Extracted records of the duplicate-render page, before duplicate
removal. -/
def adaDupCands : List Cand :=
  [buildCand { nameText := some "Ada", skillTexts := ["Engineering", "Technology"] } "Ada" 4 false,
   buildCand { nameText := some "Ada", tagline := some "duplicate render" } "Ada" 4 false]

/-- Records of the duplicate-render page after duplicate removal. -/
def adaDupOut : List Cand := dedupByName adaDupCands []

/-- Parsed markup whose regex scan found one ten-digit match. -/
def sevenDigitSoup : Soup := { regexMatches := ["555-123-4567"] }

/-- Last value a batch provides for one candidate field, if any: the set-merge
of a batch leaves a field at the value of the last record that carries it. -/
def lastSet {α : Type} (g : Cand → Option α) : List Cand → Option α
  | [] => none
  | c :: cs => (lastSet g cs).orElse fun _ => g c

/-- Key list of the store after upserting a batch, starting from a given key
list: existing names are kept in place, new names are appended at their first
occurrence. -/
def keysAfter (ks : List String) (cs : List Cand) : List String :=
  cs.foldl (fun ks c => if c.name ∈ ks then ks else ks ++ [c.name]) ks

theorem orElse_self_absorb {α : Type} (a x : Option α) :
    (a.orElse fun _ => a.orElse fun _ => x) = a.orElse fun _ => x := by
  cases a <;> rfl

theorem foldl_merge_field {α : Type} (g : Cand → Option α) (G : Doc → Option α)
    (hm : ∀ d c, G (mergeDoc d c) = (g c).orElse fun _ => G d) :
    ∀ (cs : List Cand) (d : Doc),
      G (cs.foldl mergeDoc d) = (lastSet g cs).orElse fun _ => G d := by
  intro cs
  induction cs with
  | nil => intro d; cases h : G d <;> simp [lastSet, h]
  | cons c cs ih =>
    intro d
    rw [List.foldl_cons, ih, hm]
    show _ = ((lastSet g cs).orElse fun _ => g c).orElse fun _ => G d
    cases lastSet g cs <;> rfl

theorem chain_name (cs : List Cand) (d : Doc) :
    (cs.foldl mergeDoc d).name = (lastSet (fun c => some c.name) cs).orElse fun _ => d.name :=
  foldl_merge_field _ _ (fun _ _ => rfl) cs d

theorem chain_scraped_at (cs : List Cand) (d : Doc) :
    (cs.foldl mergeDoc d).scraped_at =
      (lastSet (fun c => some c.scraped_at) cs).orElse fun _ => d.scraped_at :=
  foldl_merge_field _ _ (fun _ _ => rfl) cs d

theorem chain_source (cs : List Cand) (d : Doc) :
    (cs.foldl mergeDoc d).source =
      (lastSet (fun c => some c.source) cs).orElse fun _ => d.source :=
  foldl_merge_field _ _ (fun _ _ => rfl) cs d

theorem chain_tagline (cs : List Cand) (d : Doc) :
    (cs.foldl mergeDoc d).tagline = (lastSet (fun c => c.tagline) cs).orElse fun _ => d.tagline :=
  foldl_merge_field _ _ (fun _ _ => rfl) cs d

theorem chain_location (cs : List Cand) (d : Doc) :
    (cs.foldl mergeDoc d).location =
      (lastSet (fun c => c.location) cs).orElse fun _ => d.location :=
  foldl_merge_field _ _ (fun _ _ => rfl) cs d

theorem chain_status (cs : List Cand) (d : Doc) :
    (cs.foldl mergeDoc d).status = (lastSet (fun c => c.status) cs).orElse fun _ => d.status :=
  foldl_merge_field _ _ (fun _ _ => rfl) cs d

theorem chain_about_me (cs : List Cand) (d : Doc) :
    (cs.foldl mergeDoc d).about_me =
      (lastSet (fun c => c.about_me) cs).orElse fun _ => d.about_me :=
  foldl_merge_field _ _ (fun _ _ => rfl) cs d

theorem chain_skills (cs : List Cand) (d : Doc) :
    (cs.foldl mergeDoc d).skills = (lastSet (fun c => c.skills) cs).orElse fun _ => d.skills :=
  foldl_merge_field _ _ (fun _ _ => rfl) cs d

theorem chain_phone (cs : List Cand) (d : Doc) :
    (cs.foldl mergeDoc d).phone = (lastSet (fun c => c.phone) cs).orElse fun _ => d.phone :=
  foldl_merge_field _ _ (fun _ _ => rfl) cs d

theorem chain_avatar_url (cs : List Cand) (d : Doc) :
    (cs.foldl mergeDoc d).avatar_url =
      (lastSet (fun c => c.avatar_url) cs).orElse fun _ => d.avatar_url :=
  foldl_merge_field _ _ (fun _ _ => rfl) cs d

theorem chain_cofounder (cs : List Cand) (d : Doc) :
    (cs.foldl mergeDoc d).antler_cofounder_type =
      (lastSet (fun c => c.antler_cofounder_type) cs).orElse fun _ => d.antler_cofounder_type :=
  foldl_merge_field _ _ (fun _ _ => rfl) cs d

theorem chain_categories (cs : List Cand) (d : Doc) :
    (cs.foldl mergeDoc d).categories =
      (lastSet (fun c => c.categories) cs).orElse fun _ => d.categories :=
  foldl_merge_field _ _ (fun _ _ => rfl) cs d

theorem foldl_merge_self (cs : List Cand) (d : Doc) :
    cs.foldl mergeDoc (cs.foldl mergeDoc d) = cs.foldl mergeDoc d := by
  apply Doc.ext <;>
    simp only [chain_name, chain_scraped_at, chain_source, chain_tagline, chain_location,
      chain_status, chain_about_me, chain_skills, chain_phone, chain_avatar_url,
      chain_cofounder, chain_categories, orElse_self_absorb]

theorem save_candidates_cons (c : Cand) (cs : List Cand) (s : Store) :
    save_candidates (c :: cs) s = save_candidates cs (upsertByName s c) := rfl

theorem upsert_docs (s : Store) (c : Cand) (k : String) :
    (upsertByName s c).docs k =
      if k = c.name then some (mergeDoc ((s.docs c.name).getD emptyDoc) c)
      else s.docs k := rfl

theorem docs_save (cs : List Cand) : ∀ (s : Store) (k : String),
    (save_candidates cs s).docs k =
      if cs.filter (fun c => c.name == k) = [] then s.docs k
      else some ((cs.filter fun c => c.name == k).foldl mergeDoc ((s.docs k).getD emptyDoc)) := by
  induction cs with
  | nil => intro s k; simp [save_candidates]
  | cons c cs ih =>
    intro s k
    rw [save_candidates_cons, ih]
    by_cases hk : c.name = k
    · have hbeq : (c.name == k) = true := by exact beq_iff_eq.mpr hk
      have hf : (c :: cs).filter (fun x => x.name == k) = c :: cs.filter (fun x => x.name == k) := by
        simp [List.filter_cons, hbeq]
      have hd : (upsertByName s c).docs k = some (mergeDoc ((s.docs k).getD emptyDoc) c) := by
        rw [upsert_docs, if_pos hk.symm, hk]
      rw [hf, hd]
      by_cases hfc : cs.filter (fun x => x.name == k) = []
      · rw [if_pos hfc, hfc]
        simp
      · rw [if_neg hfc, if_neg (by simp)]
        simp [List.foldl_cons]
    · have hbeq : (c.name == k) = false := by
        exact beq_eq_false_iff_ne.mpr hk
      have hf : (c :: cs).filter (fun x => x.name == k) = cs.filter (fun x => x.name == k) := by
        simp [List.filter_cons, hbeq]
      have hd : (upsertByName s c).docs k = s.docs k := by
        rw [upsert_docs, if_neg (fun h => hk h.symm)]
      rw [hf, hd]

theorem keys_save (cs : List Cand) : ∀ s : Store,
    (save_candidates cs s).keys = keysAfter s.keys cs := by
  induction cs with
  | nil => intro s; rfl
  | cons c cs ih =>
    intro s
    rw [save_candidates_cons, ih]
    rfl

theorem mem_keysAfter (cs : List Cand) : ∀ (ks : List String) (x : String),
    x ∈ ks → x ∈ keysAfter ks cs := by
  induction cs with
  | nil => intro ks x h; exact h
  | cons c cs ih =>
    intro ks x h
    show x ∈ keysAfter (if c.name ∈ ks then ks else ks ++ [c.name]) cs
    apply ih
    by_cases hc : c.name ∈ ks
    · rw [if_pos hc]; exact h
    · rw [if_neg hc]; exact List.mem_append_left _ h

theorem name_mem_keysAfter (cs : List Cand) : ∀ (ks : List String) (c : Cand),
    c ∈ cs → c.name ∈ keysAfter ks cs := by
  induction cs with
  | nil => intro ks c h; cases h
  | cons a cs ih =>
    intro ks c h
    show c.name ∈ keysAfter (if a.name ∈ ks then ks else ks ++ [a.name]) cs
    rcases List.mem_cons.mp h with h1 | h2
    · subst h1
      apply mem_keysAfter
      by_cases hc : c.name ∈ ks
      · rw [if_pos hc]; exact hc
      · rw [if_neg hc]; exact List.mem_append_right _ (List.mem_singleton.mpr rfl)
    · exact ih _ c h2

theorem keysAfter_eq_of_subset (cs : List Cand) : ∀ ks : List String,
    (∀ c ∈ cs, c.name ∈ ks) → keysAfter ks cs = ks := by
  induction cs with
  | nil => intro ks _; rfl
  | cons c cs ih =>
    intro ks h
    show keysAfter (if c.name ∈ ks then ks else ks ++ [c.name]) cs = ks
    rw [if_pos (h c (List.mem_cons_self c cs))]
    exact ih ks fun x hx => h x (List.mem_cons_of_mem c hx)

theorem lastSet_eq_some {α : Type} (g : Cand → Option α) :
    ∀ (cs : List Cand) (v : α), lastSet g cs = some v → ∃ c ∈ cs, g c = some v := by
  intro cs
  induction cs with
  | nil => intro v h; simp [lastSet] at h
  | cons c cs ih =>
    intro v h
    have h2 : ((lastSet g cs).orElse fun _ => g c) = some v := h
    cases hcs : lastSet g cs with
    | some w =>
      rw [hcs] at h2
      obtain ⟨c2, hmem, hg⟩ := ih w hcs
      have hv : w = v := by
        have : some w = some v := h2
        injection this
      exact ⟨c2, List.mem_cons_of_mem c hmem, hv ▸ hg⟩
    | none =>
      rw [hcs] at h2
      exact ⟨c, List.mem_cons_self c cs, h2⟩

theorem getD_emptyDoc_phone (o : Option Doc) :
    ((o.getD emptyDoc)).phone = o.bind Doc.phone := by
  cases o <;> rfl

theorem phoneOf_save (rs : List Cand) (s : Store) (nm : String) :
    phoneOf (save_candidates rs s) nm =
      if rs.filter (fun c => c.name == nm) = [] then phoneOf s nm
      else (lastSet (fun c => c.phone) (rs.filter fun c => c.name == nm)).orElse
        fun _ => phoneOf s nm := by
  unfold phoneOf
  rw [docs_save]
  by_cases hf : rs.filter (fun c => c.name == nm) = []
  · rw [if_pos hf, if_pos hf]
  · rw [if_neg hf, if_neg hf]
    show ((rs.filter fun c => c.name == nm).foldl mergeDoc ((s.docs nm).getD emptyDoc)).phone = _
    rw [chain_phone, getD_emptyDoc_phone]

theorem phoneTruthy_save (rs : List Cand) (s : Store)
    (hinv : ∀ r ∈ rs, r.phone = none ∨ (r.phone = some "" ∧ phoneTruthy s r.name = false)) :
    ∀ nm, phoneTruthy (save_candidates rs s) nm = phoneTruthy s nm := by
  intro nm
  unfold phoneTruthy
  rw [phoneOf_save]
  by_cases hf : rs.filter (fun c => c.name == nm) = []
  · rw [if_pos hf]
  · rw [if_neg hf]
    cases hls : lastSet (fun c => c.phone) (rs.filter fun c => c.name == nm) with
    | none => rfl
    | some v =>
      obtain ⟨r, hrm, hrp⟩ := lastSet_eq_some _ _ v hls
      have hrs : r ∈ rs := List.mem_of_mem_filter hrm
      have hrn : r.name = nm := by
        have h2 := List.of_mem_filter hrm
        exact eq_of_beq h2
      rcases hinv r hrs with h0 | ⟨hps, hts⟩
      · rw [h0] at hrp; cases hrp
      · rw [hps] at hrp
        have hv : v = "" := by
          have : some "" = some v := hrp
          exact (Option.some.injEq _ _ ▸ this).symm
        subst hv
        have hfalse : phoneTruthy s nm = false := hrn ▸ hts
        unfold phoneTruthy at hfalse
        exact hfalse.symm

theorem extract_congr (c : Container) (now : Nat) (s1 s2 : Store)
    (h : ∀ nm, phoneTruthy s1 nm = phoneTruthy s2 nm) :
    extract_full_candidate_info c now s1 = extract_full_candidate_info c now s2 := by
  unfold extract_full_candidate_info
  cases c.nameText with
  | none => rfl
  | some nm =>
    show Except.ok (if nm = "" then none else some (buildCand c nm now (phoneTruthy s1 nm)))
      = Except.ok (if nm = "" then none else some (buildCand c nm now (phoneTruthy s2 nm)))
    rw [h nm]

theorem extractContainers_cons (c : Container) (cs : List Container) (now : Nat) (s : Store) :
    extractContainers (c :: cs) now s =
      match extract_full_candidate_info c now s with
      | Except.error e => Except.error e
      | Except.ok r =>
        match extractContainers cs now s with
        | Except.error e => Except.error e
        | Except.ok more =>
          Except.ok (match r with | some cand => cand :: more | none => more) := rfl

theorem extractContainers_congr (cs : List Container) (now : Nat) (s1 s2 : Store)
    (h : ∀ nm, phoneTruthy s1 nm = phoneTruthy s2 nm) :
    extractContainers cs now s1 = extractContainers cs now s2 := by
  induction cs with
  | nil => rfl
  | cons c cs ih =>
    rw [extractContainers_cons, extractContainers_cons,
      extract_congr c now s1 s2 h, ih]

theorem pageCandidates_congr (pg : PageHtml) (now : Nat) (s1 s2 : Store)
    (h : ∀ nm, phoneTruthy s1 nm = phoneTruthy s2 nm) :
    pageCandidates pg now s1 = pageCandidates pg now s2 := by
  unfold pageCandidates
  rw [extractContainers_congr pg.containers now s1 s2 h]

theorem scrape_current_page_congr (pg : PageHtml) (now : Nat) (s1 s2 : Store)
    (h : ∀ nm, phoneTruthy s1 nm = phoneTruthy s2 nm) :
    scrape_current_page pg now s1 = scrape_current_page pg now s2 := by
  unfold scrape_current_page
  rw [pageCandidates_congr pg now s1 s2 h]

theorem extractAllPages_cons (pg : PageHtml) (rest : List PageHtml) (now : Nat) (s : Store) :
    extractAllPages (pg :: rest) now s =
      match scrape_current_page pg now s with
      | Except.error e => Except.error e
      | Except.ok cs =>
        match extractAllPages rest now s with
        | Except.error e => Except.error e
        | Except.ok more => Except.ok (cs ++ more) := rfl

theorem extractAllPages_congr (pages : List PageHtml) (now : Nat) (s1 s2 : Store)
    (h : ∀ nm, phoneTruthy s1 nm = phoneTruthy s2 nm) :
    extractAllPages pages now s1 = extractAllPages pages now s2 := by
  induction pages with
  | nil => rfl
  | cons pg rest ih =>
    rw [extractAllPages_cons, extractAllPages_cons,
      scrape_current_page_congr pg now s1 s2 h, ih]

theorem extract_phone_inv (c : Container) (now : Nat) (s : Store) (r : Cand)
    (h : extract_full_candidate_info c now s = .ok (some r)) :
    r.phone = none ∨ (r.phone = some "" ∧ phoneTruthy s r.name = false) := by
  unfold extract_full_candidate_info at h
  cases hn : c.nameText with
  | none => rw [hn] at h; cases h
  | some nm =>
    rw [hn] at h
    have h2 : (Except.ok (if nm = "" then none else some (buildCand c nm now (phoneTruthy s nm))) :
        Except ExtractErr (Option Cand)) = Except.ok (some r) := h
    by_cases hnm : nm = ""
    · rw [if_pos hnm] at h2
      injection h2 with h3
      cases h3
    · rw [if_neg hnm] at h2
      injection h2 with h3
      injection h3 with h4
      subst h4
      by_cases hp : phoneTruthy s nm = true
      · left
        show (if phoneTruthy s nm then none else some "") = none
        rw [if_pos hp]
      · have hp2 : phoneTruthy s nm = false := by
          cases hq : phoneTruthy s nm
          · rfl
          · exact absurd hq hp
        right
        refine ⟨?_, hp2⟩
        show (if phoneTruthy s nm then none else some "") = some ""
        rw [hp2]
        rfl

theorem extractContainers_inv (cs : List Container) (now : Nat) (s : Store) :
    ∀ rs, extractContainers cs now s = .ok rs →
      ∀ r ∈ rs, r.phone = none ∨ (r.phone = some "" ∧ phoneTruthy s r.name = false) := by
  induction cs with
  | nil =>
    intro rs h r hr
    injection h with h2
    rw [← h2] at hr
    cases hr
  | cons c cs ih =>
    intro rs h r hr
    rw [extractContainers_cons] at h
    revert h
    cases hx : extract_full_candidate_info c now s with
    | error e => intro h; cases h
    | ok r0 =>
      cases hrest : extractContainers cs now s with
      | error e => intro h; cases h
      | ok more =>
        intro h
        injection h with h2
        cases r0 with
        | some cand =>
          rw [← h2] at hr
          rcases List.mem_cons.mp hr with h1 | h3
          · subst h1; exact extract_phone_inv c now s r hx
          · exact ih more hrest r h3
        | none =>
          rw [← h2] at hr
          exact ih more hrest r hr

theorem dedupByName_subset : ∀ (cs : List Cand) (seen : List String) (r : Cand),
    r ∈ dedupByName cs seen → r ∈ cs := by
  intro cs
  induction cs with
  | nil =>
    intro seen r h
    simp [dedupByName] at h
  | cons c cs ih =>
    intro seen r h
    unfold dedupByName at h
    split at h
    · rcases List.mem_cons.mp h with h1 | h2
      · subst h1; exact List.mem_cons_self _ _
      · exact List.mem_cons_of_mem _ (ih _ r h2)
    · exact List.mem_cons_of_mem _ (ih _ r h)

theorem fallbackCand_phone (t : String) (now : Nat) : (fallbackCand t now).phone = none := rfl

theorem pageCandidates_inv (pg : PageHtml) (now : Nat) (s : Store) :
    ∀ rs, pageCandidates pg now s = .ok rs →
      ∀ r ∈ rs, r.phone = none ∨ (r.phone = some "" ∧ phoneTruthy s r.name = false) := by
  intro rs h r hr
  unfold pageCandidates at h
  revert h
  cases hx : extractContainers pg.containers now s with
  | error e => intro h; cases h
  | ok base =>
    intro h
    injection h with h2
    rw [← h2] at hr
    by_cases hb : base.isEmpty
    · rw [if_pos hb] at hr
      obtain ⟨t, _, ht⟩ := List.mem_map.mp hr
      left
      rw [← ht]
      rfl
    · rw [if_neg hb] at hr
      exact extractContainers_inv pg.containers now s base hx r hr

theorem scrape_current_page_inv (pg : PageHtml) (now : Nat) (s : Store) :
    ∀ rs, scrape_current_page pg now s = .ok rs →
      ∀ r ∈ rs, r.phone = none ∨ (r.phone = some "" ∧ phoneTruthy s r.name = false) := by
  intro rs h r hr
  unfold scrape_current_page at h
  revert h
  cases hx : pageCandidates pg now s with
  | error e => intro h; cases h
  | ok cands =>
    intro h
    injection h with h2
    rw [← h2] at hr
    exact pageCandidates_inv pg now s cands hx r (dedupByName_subset cands [] r hr)

theorem extractAllPages_inv (pages : List PageHtml) (now : Nat) (s : Store) :
    ∀ rs, extractAllPages pages now s = .ok rs →
      ∀ r ∈ rs, r.phone = none ∨ (r.phone = some "" ∧ phoneTruthy s r.name = false) := by
  induction pages with
  | nil =>
    intro rs h r hr
    injection h with h2
    rw [← h2] at hr
    cases hr
  | cons pg rest ih =>
    intro rs h r hr
    rw [extractAllPages_cons] at h
    revert h
    cases hx : scrape_current_page pg now s with
    | error e => intro h; cases h
    | ok cs =>
      cases hrest : extractAllPages rest now s with
      | error e => intro h; cases h
      | ok more =>
        intro h
        injection h with h2
        rw [← h2] at hr
        rcases List.mem_append.mp hr with h1 | h3
        · exact scrape_current_page_inv pg now s cs hx r h1
        · exact ih more hrest r h3

/-- C3: running a full crawl pass twice with identical rendered input (and
the same extraction timestamp) yields exactly the same store, row count and
field values alike, as running it once; and the set-merge replaces a list
field wholesale whenever the record provides it.  save_candidates upserts by
the identity key and its merges are absorbed on repetition, and the phone
decision of the extractor is unchanged by the first save, so the second pass
extracts the same batch and writes it onto itself. -/
theorem C3_full_crawl_idempotent :
    (∀ (pages : List PageHtml) (now : Nat) (s : Store),
      fullCrawlStore pages now (fullCrawlStore pages now s) = fullCrawlStore pages now s)
    ∧ ∀ (d : Doc) (c : Cand), (mergeDoc d c).skills = c.skills.orElse fun _ => d.skills := by
  constructor
  · intro pages now s
    cases hx : extractAllPages pages now s with
    | error e =>
      have h1 : fullCrawlStore pages now s = s := by
        unfold fullCrawlStore
        rw [hx]
      rw [h1]
      exact h1
    | ok rs =>
      have h1 : fullCrawlStore pages now s = save_candidates rs s := by
        unfold fullCrawlStore
        rw [hx]
      have hphone : ∀ nm, phoneTruthy (save_candidates rs s) nm = phoneTruthy s nm :=
        phoneTruthy_save rs s (extractAllPages_inv pages now s rs hx)
      have hx2 : extractAllPages pages now (save_candidates rs s) = .ok rs := by
        rw [extractAllPages_congr pages now (save_candidates rs s) s hphone, hx]
      rw [h1]
      have h2 : fullCrawlStore pages now (save_candidates rs s)
          = save_candidates rs (save_candidates rs s) := by
        unfold fullCrawlStore
        rw [hx2]
      rw [h2]
      apply Store.ext
      · rw [keys_save rs (save_candidates rs s), keys_save rs s]
        exact keysAfter_eq_of_subset rs (keysAfter s.keys rs)
          fun c hc => name_mem_keysAfter rs s.keys c hc
      · funext k
        rw [docs_save rs (save_candidates rs s) k]
        by_cases hf : rs.filter (fun c => c.name == k) = []
        · rw [if_pos hf]
        · rw [if_neg hf]
          simp only [docs_save rs s k, if_neg hf, Option.getD_some, foldl_merge_self]
  · intro d c
    rfl

theorem rescanStep_res_nonblank (s : Store) (c : RContainer) (nm ph : String)
    (h : rescanContainerStep s c = .res nm ph) : phoneNonBlank s nm = false := by
  unfold rescanContainerStep at h
  revert h
  cases c.nameText with
  | none => intro h; cases h
  | some raw =>
    intro h
    have hred : (if normalizeName raw = "Chris (Test) Klam" then StepResult.skipTest
        else if phoneNonBlank s (normalizeName raw) then StepResult.skipPhone (normalizeName raw)
        else StepResult.res (normalizeName raw) ((extract_phone_from_container c).getD ""))
        = StepResult.res nm ph := h
    by_cases h1 : normalizeName raw = "Chris (Test) Klam"
    · rw [if_pos h1] at hred; cases hred
    · rw [if_neg h1] at hred
      by_cases h2 : phoneNonBlank s (normalizeName raw) = true
      · rw [if_pos h2] at hred; cases hred
      · rw [if_neg h2] at hred
        injection hred with hnm hph
        rw [← hnm]
        cases hq : phoneNonBlank s (normalizeName raw)
        · rfl
        · exact absurd hq h2

theorem scpp_cons (s : Store) (c : RContainer) (cs : List RContainer) :
    scrape_current_page_phones s (c :: cs) =
      match rescanContainerStep s c with
      | .res nm ph => ((nm, ph) :: (scrape_current_page_phones s cs).1,
          REvent.processed nm ph :: (scrape_current_page_phones s cs).2)
      | .skipPhone nm => ((scrape_current_page_phones s cs).1,
          REvent.skippedPhone nm :: (scrape_current_page_phones s cs).2)
      | .skipTest => ((scrape_current_page_phones s cs).1,
          REvent.skippedTest :: (scrape_current_page_phones s cs).2)
      | .err => ((scrape_current_page_phones s cs).1,
          REvent.nameError :: (scrape_current_page_phones s cs).2) := rfl

theorem scpp_results_nonblank (s : Store) :
    ∀ (cs : List RContainer) (pr : String × String),
      pr ∈ (scrape_current_page_phones s cs).1 → phoneNonBlank s pr.1 = false := by
  intro cs
  induction cs with
  | nil =>
    intro pr h
    simp [scrape_current_page_phones] at h
  | cons c cs ih =>
    intro pr h
    rw [scpp_cons] at h
    revert h
    cases hstep : rescanContainerStep s c with
    | res nm ph =>
      intro h
      rcases List.mem_cons.mp h with h1 | h2
      · subst h1
        exact rescanStep_res_nonblank s c nm ph hstep
      · exact ih pr h2
    | skipPhone nm => intro h; exact ih pr h
    | skipTest => intro h; exact ih pr h
    | err => intro h; exact ih pr h

theorem rescanPages_cons (s : Store) (pg : List RContainer) (rest : List (List RContainer)) :
    rescanPages s (pg :: rest) =
      ((scrape_current_page_phones s pg).1 ++ (rescanPages s rest).1,
       (scrape_current_page_phones s pg).2 ++ (rescanPages s rest).2) := rfl

theorem rescanPages_results_nonblank (s : Store) :
    ∀ (pages : List (List RContainer)) (pr : String × String),
      pr ∈ (rescanPages s pages).1 → phoneNonBlank s pr.1 = false := by
  intro pages
  induction pages with
  | nil =>
    intro pr h
    simp [rescanPages] at h
  | cons pg rest ih =>
    intro pr h
    rw [rescanPages_cons] at h
    rcases List.mem_append.mp h with h1 | h2
    · exact scpp_results_nonblank s pg pr h1
    · exact ih pr h2

theorem writePhase_cons (save : Bool) (nm ph : String) (rs : List (String × String)) (s : Store) :
    writePhase save ((nm, ph) :: rs) s =
      if save then
        match s.docs nm with
        | some _ =>
          ((writePhase save rs (update_candidate_phone save s nm ph)).1,
           REvent.wrote nm ph :: (writePhase save rs (update_candidate_phone save s nm ph)).2)
        | none => writePhase save rs s
      else writePhase save rs s := rfl

theorem writePhase_false : ∀ (rs : List (String × String)) (s : Store),
    writePhase false rs s = (s, []) := by
  intro rs
  induction rs with
  | nil => intro s; rfl
  | cons r rs ih =>
    intro s
    cases r with
    | mk nm ph =>
      rw [writePhase_cons, if_neg Bool.false_ne_true]
      exact ih s

theorem update_docs_eq (s : Store) (nm ph k : String) :
    (update_candidate_phone true s nm ph).docs k =
      if k = nm then (s.docs k).map (fun d => { d with phone := some ph })
      else s.docs k := by
  unfold update_candidate_phone
  rw [if_pos rfl]

theorem update_docs_isSome (s : Store) (nm ph k : String) :
    ((update_candidate_phone true s nm ph).docs k).isSome = (s.docs k).isSome := by
  rw [update_docs_eq]
  by_cases h : k = nm
  · rw [if_pos h]
    cases s.docs k <;> rfl
  · rw [if_neg h]

theorem writePhase_docs_other (save : Bool) :
    ∀ (rs : List (String × String)) (t : Store) (nm : String),
      (∀ r ∈ rs, r.1 ≠ nm) → ((writePhase save rs t).1).docs nm = t.docs nm := by
  intro rs
  induction rs with
  | nil => intro t nm _; rfl
  | cons r rs ih =>
    intro t nm h
    cases r with
    | mk n ph =>
      have hn : n ≠ nm := h (n, ph) (List.mem_cons_self _ _)
      have htail : ∀ r ∈ rs, r.1 ≠ nm := fun r hr => h r (List.mem_cons_of_mem _ hr)
      cases save with
      | false =>
        rw [writePhase_false]
      | true =>
        rw [writePhase_cons, if_pos rfl]
        cases ht : t.docs n with
        | none => exact ih t nm htail
        | some d =>
          show ((writePhase true rs (update_candidate_phone true t n ph)).1).docs nm = t.docs nm
          rw [ih (update_candidate_phone true t n ph) nm htail, update_docs_eq,
            if_neg (fun hh => hn hh.symm)]

theorem scpp_events_not_wrote (s : Store) :
    ∀ (cs : List RContainer) (e : REvent),
      e ∈ (scrape_current_page_phones s cs).2 → isWroteEvent e = false := by
  intro cs
  induction cs with
  | nil =>
    intro e h
    simp [scrape_current_page_phones] at h
  | cons c cs ih =>
    intro e h
    rw [scpp_cons] at h
    revert h
    cases rescanContainerStep s c with
    | res nm ph =>
      intro h
      rcases List.mem_cons.mp h with h1 | h2
      · subst h1; rfl
      · exact ih e h2
    | skipPhone nm =>
      intro h
      rcases List.mem_cons.mp h with h1 | h2
      · subst h1; rfl
      · exact ih e h2
    | skipTest =>
      intro h
      rcases List.mem_cons.mp h with h1 | h2
      · subst h1; rfl
      · exact ih e h2
    | err =>
      intro h
      rcases List.mem_cons.mp h with h1 | h2
      · subst h1; rfl
      · exact ih e h2

theorem rescanPages_events_not_wrote (s : Store) :
    ∀ (pages : List (List RContainer)) (e : REvent),
      e ∈ (rescanPages s pages).2 → isWroteEvent e = false := by
  intro pages
  induction pages with
  | nil =>
    intro e h
    simp [rescanPages] at h
  | cons pg rest ih =>
    intro e h
    rw [rescanPages_cons] at h
    rcases List.mem_append.mp h with h1 | h2
    · exact scpp_events_not_wrote s pg e h1
    · exact ih e h2

theorem writePhase_events_wrote (save : Bool) :
    ∀ (rs : List (String × String)) (t : Store) (e : REvent),
      e ∈ (writePhase save rs t).2 → isWroteEvent e = true := by
  intro rs
  induction rs with
  | nil =>
    intro t e h
    simp [writePhase] at h
  | cons r rs ih =>
    intro t e h
    cases r with
    | mk n ph =>
      cases save with
      | false =>
        rw [writePhase_false] at h
        cases h
      | true =>
        rw [writePhase_cons, if_pos rfl] at h
        revert h
        cases t.docs n with
        | some d =>
          intro h
          rcases List.mem_cons.mp h with h1 | h2
          · subst h1; rfl
          · exact ih (update_candidate_phone true t n ph) e h2
        | none =>
          intro h
          exact ih t e h

theorem writePhase_events_char :
    ∀ (rs : List (String × String)) (t u : Store),
      (∀ k, (t.docs k).isSome = (u.docs k).isSome) →
      (writePhase true rs t).2 =
        (rs.filter fun r => (u.docs r.1).isSome).map (fun r => REvent.wrote r.1 r.2) := by
  intro rs
  induction rs with
  | nil => intro t u _; rfl
  | cons r rs ih =>
    intro t u h
    cases r with
    | mk n ph =>
      rw [writePhase_cons, if_pos rfl]
      cases ht : t.docs n with
      | some d =>
        have hu : ((u.docs n).isSome) = true := by
          rw [← h n, ht]
          rfl
        have hf : ((n, ph) :: rs).filter (fun r => (u.docs r.1).isSome)
            = (n, ph) :: rs.filter (fun r => (u.docs r.1).isSome) := by
          simp [List.filter_cons, hu]
        rw [hf]
        show REvent.wrote n ph :: (writePhase true rs (update_candidate_phone true t n ph)).2 = _
        rw [List.map_cons]
        have hsync : ∀ k, ((update_candidate_phone true t n ph).docs k).isSome = (u.docs k).isSome :=
          fun k => (update_docs_isSome t n ph k).trans (h k)
        rw [ih (update_candidate_phone true t n ph) u hsync]
      | none =>
        have hu : ((u.docs n).isSome) = false := by
          rw [← h n, ht]
          rfl
        have hf : ((n, ph) :: rs).filter (fun r => (u.docs r.1).isSome)
            = rs.filter (fun r => (u.docs r.1).isSome) := by
          simp [List.filter_cons, hu]
        rw [hf]
        exact ih t u h

theorem filter_eq_nil_of_false {α : Type} (p : α → Bool) :
    ∀ l : List α, (∀ e ∈ l, p e = false) → l.filter p = [] := by
  intro l
  induction l with
  | nil => intro _; rfl
  | cons a l ih =>
    intro h
    rw [List.filter_cons, h a (List.mem_cons_self _ _)]
    exact ih fun e he => h e (List.mem_cons_of_mem _ he)

theorem filter_eq_self_of_true {α : Type} (p : α → Bool) :
    ∀ l : List α, (∀ e ∈ l, p e = true) → l.filter p = l := by
  intro l
  induction l with
  | nil => intro _; rfl
  | cons a l ih =>
    intro h
    rw [List.filter_cons, h a (List.mem_cons_self _ _)]
    rw [ih fun e he => h e (List.mem_cons_of_mem _ he)]
    rw [if_pos rfl]

theorem findSome?_exists {α β : Type} (f : α → Option β) :
    ∀ (l : List α) (b : β), l.findSome? f = some b → ∃ a ∈ l, f a = some b := by
  intro l
  induction l with
  | nil => intro b h; cases h
  | cons a l ih =>
    intro b h
    rw [List.findSome?_cons] at h
    revert h
    cases hfa : f a with
    | some v =>
      intro h
      injection h with h2
      exact ⟨a, List.mem_cons_self _ _, h2 ▸ hfa⟩
    | none =>
      intro h
      obtain ⟨a2, hm, hf2⟩ := ih b h
      exact ⟨a2, List.mem_cons_of_mem _ hm, hf2⟩

theorem get_append_lt {α : Type} (l1 l2 : List α) (p q : α → Bool)
    (h1 : ∀ e ∈ l1, q e = false) (h2 : ∀ e ∈ l2, p e = false) :
    ∀ (i j : Fin (l1 ++ l2).length),
      p ((l1 ++ l2).get i) = true → q ((l1 ++ l2).get j) = true → i.val < j.val := by
  intro i j hp hq
  have hi : i.val < l1.length := by
    by_contra hge
    push_neg at hge
    have hlt : i.val - l1.length < l2.length := by
      have hlen : (l1 ++ l2).length = l1.length + l2.length := List.length_append _ _
      have hil := i.isLt
      omega
    have hget : (l1 ++ l2).get i = l2[i.val - l1.length] := by
      rw [List.get_eq_getElem, List.getElem_append_right hge]
    have hmem : (l1 ++ l2).get i ∈ l2 := by
      rw [hget]
      exact List.getElem_mem hlt
    rw [h2 _ hmem] at hp
    cases hp
  have hj : l1.length ≤ j.val := by
    by_contra hlt
    push_neg at hlt
    have hget : (l1 ++ l2).get j = l1[j.val] := by
      rw [List.get_eq_getElem, List.getElem_append_left hlt]
    have hmem : (l1 ++ l2).get j ∈ l1 := by
      rw [hget]
      exact List.getElem_mem hlt
    rw [h1 _ hmem] at hq
    cases hq
  omega

theorem wrote_not_processed (e : REvent) (h : isWroteEvent e = true) :
    isProcessedEvent e = false := by
  cases e <;> first | rfl | cases h

theorem findFirstActionable_filter (p : PageButton → Bool) :
    ∀ ps : List PageButton,
      findFirstActionable (ps.filter p) = ps.find? fun b => p b && actionable b := by
  intro ps
  induction ps with
  | nil => rfl
  | cons b bs ih =>
    rw [List.filter_cons]
    by_cases hp : p b = true
    · rw [if_pos hp]
      show (if actionable b = true then some b else findFirstActionable (bs.filter p)) = _
      by_cases ha : actionable b = true
      · rw [if_pos ha, List.find?_cons_of_pos]
        rw [hp, ha]
        rfl
      · have ha2 : actionable b = false := by
          cases hq : actionable b
          · rfl
          · exact absurd hq ha
        rw [if_neg ha, ih, List.find?_cons_of_neg]
        rw [ha2, Bool.and_false]
        exact Bool.false_ne_true
    · have hp2 : p b = false := by
        cases hq : p b
        · rfl
        · exact absurd hq hp
      rw [if_neg hp, ih, List.find?_cons_of_neg]
      rw [hp2, Bool.false_and]
      exact Bool.false_ne_true

theorem navStrategy23_eq (t : String) (ps : List PageButton) :
    navStrategy23 t ps =
      (firstContainsActionable t ps).orElse fun _ => firstGenericActionable ps := by
  unfold navStrategy23 firstContainsActionable firstGenericActionable
  rw [findFirstActionable_filter, findFirstActionable_filter]
  cases ps.find? (fun b => hasSubstr b.textNode t && actionable b) <;> rfl

theorem navPageFallback_eq (t : String) (ps : List PageButton) :
    navPageFallback t ps =
      (match firstContainsActionable t ps with
        | some b => (true, some b)
        | none => (false, none)) := by
  unfold navPageFallback firstContainsActionable
  rw [findFirstActionable_filter]

theorem dedupByName_not_blank : ∀ (cs : List Cand) (seen : List String) (r : Cand),
    r ∈ dedupByName cs seen → r.name ≠ "" := by
  intro cs
  induction cs with
  | nil =>
    intro seen r h
    simp [dedupByName] at h
  | cons c cs ih =>
    intro seen r h
    unfold dedupByName at h
    split at h
    · rcases List.mem_cons.mp h with h1 | h2
      · subst h1
        rename_i hcond
        exact hcond.1
      · exact ih _ r h2
    · exact ih _ r h

theorem dedupByName_filter_mem_seen : ∀ (cs : List Cand) (seen : List String) (nm : String),
    nm ∈ seen → (dedupByName cs seen).filter (fun c => c.name == nm) = [] := by
  intro cs
  induction cs with
  | nil => intro seen nm _; rfl
  | cons c cs ih =>
    intro seen nm hseen
    unfold dedupByName
    split
    · rename_i hcond
      rw [List.filter_cons]
      have hne : (c.name == nm) = false :=
        beq_eq_false_iff_ne.mpr fun he => hcond.2 (he ▸ hseen)
      rw [hne]
      show (dedupByName cs (seen ++ [c.name])).filter (fun c => c.name == nm) = []
      exact ih (seen ++ [c.name]) nm (List.mem_append_left _ hseen)
    · exact ih seen nm hseen

theorem dedupByName_filter_first : ∀ (cs : List Cand) (seen : List String) (nm : String) (r : Cand),
    nm ≠ "" → nm ∉ seen → cs.find? (fun c => c.name == nm) = some r →
    (dedupByName cs seen).filter (fun c => c.name == nm) = [r] := by
  intro cs
  induction cs with
  | nil =>
    intro seen nm r _ _ h
    cases h
  | cons c cs ih =>
    intro seen nm r hnm hseen hfind
    by_cases hcn : (c.name == nm) = true
    · have hceq : c.name = nm := eq_of_beq hcn
      have hr : c = r := by
        have hfc : List.find? (fun x => x.name == nm) (c :: cs) = some c := by
          unfold List.find?
          rw [hcn]
        rw [hfc] at hfind
        injection hfind
      subst hr
      unfold dedupByName
      rw [if_pos ⟨hceq ▸ hnm, hceq ▸ hseen⟩]
      rw [List.filter_cons, hcn]
      rw [if_pos rfl]
      have htail : (dedupByName cs (seen ++ [c.name])).filter (fun x => x.name == nm) = [] :=
        dedupByName_filter_mem_seen cs (seen ++ [c.name]) nm
          (List.mem_append_right _ (hceq ▸ List.mem_singleton.mpr rfl))
      rw [htail]
    · have hcn2 : (c.name == nm) = false := by
        cases hq : c.name == nm
        · rfl
        · exact absurd hq hcn
      have hfind2 : cs.find? (fun c => c.name == nm) = some r := by
        have hfc : List.find? (fun x => x.name == nm) (c :: cs)
            = List.find? (fun x => x.name == nm) cs := by
          unfold List.find?
          rw [hcn2]
          cases cs <;> rfl
        rw [hfc] at hfind
        exact hfind
      have hne : c.name ≠ nm := fun he => by
        rw [he] at hcn2
        rw [BEq.refl] at hcn2
        cases hcn2
      unfold dedupByName
      split
      · rw [List.filter_cons, hcn2]
        show (dedupByName cs (seen ++ [c.name])).filter (fun x => x.name == nm) = [r]
        apply ih (seen ++ [c.name]) nm r hnm _ hfind2
        intro hmem
        rcases List.mem_append.mp hmem with h1 | h2
        · exact hseen h1
        · exact hne (List.mem_singleton.mp h2).symm
      · exact ih seen nm r hnm hseen hfind2

/-- C1 (amended): per pass, a stored phone that is non-empty after stripping
whitespace is never changed except by an explicit non-empty replacement.  A
full crawl pass leaves any non-empty stored phone value unchanged, and its
extractor sets the phone key to the empty string exactly when the store
holds no non-empty phone for the extracted identity; the rescan pass skips
every candidate whose stored phone is non-empty after stripping whitespace
and leaves that candidate document untouched.  A stored phone that is
non-empty but whitespace-only is outside the rescan guarantee (see the
counterexample). -/
theorem C1_phone_monotonic_per_pass :
    (∀ (pages : List PageHtml) (now : Nat) (s : Store) (nm p : String),
      phoneOf s nm = some p → p ≠ "" →
        phoneOf (fullCrawlStore pages now s) nm = some p)
    ∧ (∀ (save : Bool) (pages : List (List RContainer)) (s : Store) (nm p : String),
      phoneOf s nm = some p → pyStrip p ≠ "" →
        ((scrape_phones save pages s).1).docs nm = s.docs nm)
    ∧ (∀ (c : Container) (now : Nat) (s : Store) (r : Cand),
      extract_full_candidate_info c now s = .ok (some r) →
        (r.phone = some "" ↔ phoneTruthy s r.name = false)) := by
  refine ⟨?_, ?_, ?_⟩
  · intro pages now s nm p hp hne
    cases hx : extractAllPages pages now s with
    | error e =>
      unfold fullCrawlStore
      rw [hx]
      exact hp
    | ok rs =>
      unfold fullCrawlStore
      rw [hx]
      rw [phoneOf_save]
      by_cases hf : rs.filter (fun c => c.name == nm) = []
      · rw [if_pos hf]
        exact hp
      · rw [if_neg hf]
        have htruthy : phoneTruthy s nm = true := by
          unfold phoneTruthy
          rw [hp]
          exact bne_iff_ne.mpr hne
        have hnone : lastSet (fun c => c.phone) (rs.filter fun c => c.name == nm) = none := by
          cases hls : lastSet (fun c => c.phone) (rs.filter fun c => c.name == nm) with
          | none => rfl
          | some v =>
            obtain ⟨r, hrm, hrp⟩ := lastSet_eq_some _ _ v hls
            have hrs := List.mem_of_mem_filter hrm
            have hrb := List.of_mem_filter hrm
            have hrn : r.name = nm := eq_of_beq hrb
            rcases extractAllPages_inv pages now s rs hx r hrs with h0 | ⟨hps, hts⟩
            · rw [h0] at hrp
              cases hrp
            · rw [hrn] at hts
              rw [hts] at htruthy
              cases htruthy
        rw [hnone]
        exact hp
  · intro save pages s nm p hp htr
    have hpe : p ≠ "" := fun he => htr (by rw [he]; rfl)
    have hnb : phoneNonBlank s nm = true := by
      unfold phoneNonBlank
      rw [hp]
      show (p != "" && pyStrip p != "") = true
      rw [Bool.and_eq_true]
      exact ⟨bne_iff_ne.mpr hpe, bne_iff_ne.mpr htr⟩
    show ((writePhase save (rescanPages s pages).1 s).1).docs nm = s.docs nm
    apply writePhase_docs_other
    intro r hr he
    have hfalse := rescanPages_results_nonblank s pages r hr
    rw [he, hnb] at hfalse
    cases hfalse
  · intro c now s r h
    unfold extract_full_candidate_info at h
    revert h
    cases hn : c.nameText with
    | none => intro h; cases h
    | some nm =>
      intro h
      have h2 : (Except.ok (if nm = "" then none
          else some (buildCand c nm now (phoneTruthy s nm))) :
          Except ExtractErr (Option Cand)) = Except.ok (some r) := h
      by_cases hnm : nm = ""
      · rw [if_pos hnm] at h2
        injection h2 with h3
        cases h3
      · rw [if_neg hnm] at h2
        injection h2 with h3
        injection h3 with h4
        subst h4
        constructor
        · intro hph
          have hph2 : (if phoneTruthy s nm then (none : Option String) else some "")
              = some "" := hph
          by_cases hpt : phoneTruthy s nm = true
          · rw [if_pos hpt] at hph2
            cases hph2
          · show phoneTruthy s nm = false
            cases hq : phoneTruthy s nm
            · rfl
            · exact absurd hq hpt
        · intro hpt
          have hpt2 : phoneTruthy s nm = false := hpt
          show (if phoneTruthy s nm then (none : Option String) else some "") = some ""
          rw [hpt2]
          rfl

/-- Witness for C1: a crawl page and a rescan page over a store holding a
well-formed phone, and an extraction against a store with no phone. -/
theorem C1_witness :
    phoneOf (fullCrawlStore [adaPage] 5 adaStore) "Ada" = some "+1-555-0100"
    ∧ ((scrape_phones true [[adaRescanContainer]] adaStore).1).docs "Ada" = adaStore.docs "Ada"
    ∧ (buildCand bobContainer "Bob" 7 (phoneTruthy emptyStore "Bob")).phone = some "" := by
  refine ⟨?_, ?_, ?_⟩
  · exact C1_phone_monotonic_per_pass.1 [adaPage] 5 adaStore "Ada" "+1-555-0100"
      (by decide) (by decide)
  · exact C1_phone_monotonic_per_pass.2.1 true [[adaRescanContainer]] adaStore "Ada"
      "+1-555-0100" (by decide) (by decide)
  · exact (C1_phone_monotonic_per_pass.2.2 bobContainer 7 emptyStore
      (buildCand bobContainer "Bob" 7 (phoneTruthy emptyStore "Bob")) rfl).mpr (by decide)

/-- Counterexample for C1 as frozen: a stored phone consisting of a single
space is a non-empty string, yet a saving rescan pass that finds no phone
for that candidate processes it (the skip test strips whitespace) and blanks
the stored value. -/
theorem C1_counterexample_blank_phone :
    phoneOf eveStore "Eve" = some " "
    ∧ (" " : String) ≠ ""
    ∧ phoneOf ((scrape_phones true [[eveContainer]] eveStore).1) "Eve" = some "" := by
  refine ⟨by decide, by decide, by decide⟩

/-- C2: a container with no name element does not make
extract_full_candidate_info return nothing; the store lookup of the name key
(scrape_antler_candidates.py, line 459) raises KeyError before the name
guard of line 509 is reached. -/
theorem C2_nameless_container_raises :
    extract_full_candidate_info noNameContainer 0 emptyStore = .error .keyErrorName := rfl

/-- C7: with saving off (the default of the phone rescan), the pass reads
the store to decide skips but performs no write: the store after a dry run
equals the store before it, for every initial store and rendered input. -/
theorem C7_dry_run_preserves_store :
    ∀ (pages : List (List RContainer)) (s : Store), (scrape_phones false pages s).1 = s := by
  intro pages s
  show (writePhase false (rescanPages s pages).1 s).1 = s
  rw [writePhase_false]

/-- C4 (amended): the rescan defers its writes.  Every store-write event of
a saving rescan run comes after every processed-candidate event, and the
writes are exactly one update_candidate_phone per processed candidate whose
name is present in the store, in processing order. -/
theorem C4_write_phase_deferred :
    ∀ (pages : List (List RContainer)) (s : Store),
      (∀ i j : Fin ((scrape_phones true pages s).2).length,
        isProcessedEvent (((scrape_phones true pages s).2).get i) = true →
        isWroteEvent (((scrape_phones true pages s).2).get j) = true → i.val < j.val)
      ∧ (scrape_phones true pages s).2.filter isWroteEvent =
          ((rescanPages s pages).1.filter fun r => (s.docs r.1).isSome).map
            (fun r => REvent.wrote r.1 r.2) := by
  intro pages s
  constructor
  · intro i j hp hq
    exact get_append_lt (rescanPages s pages).2
      (writePhase true (rescanPages s pages).1 s).2 isProcessedEvent isWroteEvent
      (fun e he => rescanPages_events_not_wrote s pages e he)
      (fun e he => wrote_not_processed e (writePhase_events_wrote true _ s e he))
      i j hp hq
  · show ((rescanPages s pages).2 ++ (writePhase true (rescanPages s pages).1 s).2).filter
      isWroteEvent = _
    rw [List.filter_append]
    rw [filter_eq_nil_of_false isWroteEvent (rescanPages s pages).2
      (fun e he => rescanPages_events_not_wrote s pages e he)]
    rw [filter_eq_self_of_true isWroteEvent (writePhase true (rescanPages s pages).1 s).2
      (fun e he => writePhase_events_wrote true _ s e he)]
    rw [List.nil_append]
    exact writePhase_events_char (rescanPages s pages).1 s s fun _ => rfl

/-- Witness for C4: one saving rescan run with one processed stored
candidate; the run has exactly one write event and the processing of the
candidate precedes the write. -/
theorem C4_witness :
    (scrape_phones true [[willaContainer]] willaStore).2.filter isWroteEvent
      = [REvent.wrote "Willa" "5550001111"]
    ∧ (0 : Nat) < 1 := by
  have h := C4_write_phase_deferred [[willaContainer]] willaStore
  constructor
  · rw [h.2]
    decide
  · exact h.1 ⟨0, by decide⟩ ⟨1, by decide⟩ (by decide) (by decide)

/-- Counterexample for C4 as frozen: with two candidates on one page, both
writes happen after both candidates were processed, so no processed
candidate has its write before the next candidate is processed. -/
theorem C4_counterexample_batched_writes :
    annBobTrace = [REvent.processed "Ann" "5551234567", REvent.processed "Bob" "5559876543",
      REvent.wrote "Ann" "5551234567", REvent.wrote "Bob" "5559876543"]
    ∧ ¬ writesImmediately annBobTrace := by
  constructor
  · decide
  · decide

/-- Counterexample for C6 as frozen: both entry points catch the keyboard
interrupt, print a message, and fall off the end of main, so the process
exit code is zero, not non-zero. -/
theorem C6_counterexample_interrupt_exit_zero :
    (antler_main RunOutcome.interrupted).code = 0
    ∧ (phone_main RunOutcome.interrupted).code = 0 :=
  ⟨rfl, rfl⟩

/-- C6 (amended): normal completion exits zero; an unhandled fatal error is
printed without a stack trace and exits one; a keyboard interrupt is printed
without a stack trace and exits zero. -/
theorem C6_exit_codes :
    antler_main RunOutcome.completed = { code := 0, stackTrace := false }
    ∧ antler_main RunOutcome.fatalError = { code := 1, stackTrace := false }
    ∧ antler_main RunOutcome.interrupted = { code := 0, stackTrace := false }
    ∧ phone_main RunOutcome.completed = { code := 0, stackTrace := false }
    ∧ phone_main RunOutcome.fatalError = { code := 1, stackTrace := false }
    ∧ phone_main RunOutcome.interrupted = { code := 0, stackTrace := false } :=
  ⟨rfl, rfl, rfl, rfl, rfl, rfl⟩

/-- C5 (amended): the full-crawl advance always targets page two and tries,
in order, the exact descendant-text match, any actionable control whose
text contains the digit, then any actionable control with a generic
pagination marker, clicking the first actionable match; the rescan advance
for a target of two or more tries only the first two strategies for the
requested number and reports failure when neither finds an actionable
control, while target one reports success without clicking. -/
theorem C5_pagination_strategy_order :
    (∀ ps : List PageButton,
      navigate_to_next_page ps =
        ((firstExactActionable "2" ps).orElse fun _ =>
          (firstContainsActionable "2" ps).orElse fun _ => firstGenericActionable ps))
    ∧ (∀ (n : Nat) (ps : List PageButton), 2 ≤ n →
        navigate_to_page n ps =
          (match (firstExactActionable (toString n) ps).orElse
              (fun _ => firstContainsActionable (toString n) ps) with
            | some b => (true, some b)
            | none => (false, none)))
    ∧ (∀ ps : List PageButton, navigate_to_page 1 ps = (true, none)) := by
  refine ⟨?_, ?_, ?_⟩
  · intro ps
    unfold navigate_to_next_page firstExactActionable
    cases hf : ps.find? (fun b => b.descDivTexts.contains "2") with
    | none => exact navStrategy23_eq "2" ps
    | some b =>
      by_cases ha : actionable b = true
      · show (if actionable b = true then some b else navStrategy23 "2" ps) = _
        rw [if_pos ha]
        show some b = ((if actionable b = true then some b else none).orElse _)
        rw [if_pos ha]
        rfl
      · have ha2 : actionable b = false := by
          cases hq : actionable b
          · rfl
          · exact absurd hq ha
        show (if actionable b = true then some b else navStrategy23 "2" ps) = _
        rw [if_neg ha]
        show navStrategy23 "2" ps = ((if actionable b = true then some b else none).orElse _)
        rw [if_neg ha]
        exact navStrategy23_eq "2" ps
  · intro n ps hn
    have hn1 : ¬ n = 1 := by omega
    unfold navigate_to_page firstExactActionable
    rw [if_neg hn1]
    cases hf : ps.find? (fun b => b.descDivTexts.contains (toString n)) with
    | none =>
      rw [navPageFallback_eq]
      rfl
    | some b =>
      by_cases ha : actionable b = true
      · show (if actionable b = true then ((true : Bool), some b)
            else navPageFallback (toString n) ps) = _
        rw [if_pos ha]
        show ((true : Bool), some b)
          = (match (if actionable b = true then some b else none).orElse
              (fun _ => firstContainsActionable (toString n) ps) with
            | some b => ((true : Bool), some b)
            | none => (false, none))
        rw [if_pos ha]
        rfl
      · have ha2 : actionable b = false := by
          cases hq : actionable b
          · rfl
          · exact absurd hq ha
        show (if actionable b = true then ((true : Bool), some b)
            else navPageFallback (toString n) ps) = _
        rw [if_neg ha]
        show navPageFallback (toString n) ps
          = (match (if actionable b = true then some b else none).orElse
              (fun _ => firstContainsActionable (toString n) ps) with
            | some b => ((true : Bool), some b)
            | none => (false, none))
        rw [if_neg ha]
        rw [navPageFallback_eq]
        rfl
  · intro ps
    unfold navigate_to_page
    rw [if_pos rfl]

/-- Witness for C5: a target-two rescan advance clicks the exact-match
control and reports success. -/
theorem C5_witness : navigate_to_page 2 [exactTwoButton] = (true, some exactTwoButton) := by
  have h := C5_pagination_strategy_order.2.1 2 [exactTwoButton] (by decide)
  rw [h]
  decide

/-- Counterexample for C5 as frozen: on a page whose only control is an
actionable generic pagination marker, the third strategy would find it (the
full-crawl function does) but the rescan navigation never tries it and
reports failure. -/
theorem C5_counterexample_missing_generic_strategy :
    (navigate_to_page 2 [genericNextButton]).1 = false
    ∧ firstGenericActionable [genericNextButton] = some genericNextButton
    ∧ navigate_to_next_page [genericNextButton] = some genericNextButton := by
  refine ⟨by decide, by decide, by decide⟩

/-- C8 (amended): after extracting all containers of one page, records with
a non-empty name are collapsed by name keeping the first occurrence: for
every name that occurs, exactly the first extracted record with that name
appears in the page output; records whose name is the empty string are
dropped entirely rather than collapsed to one. -/
theorem C8_dedup_first_occurrence :
    ∀ (pg : PageHtml) (now : Nat) (s : Store) (cands out : List Cand),
      pageCandidates pg now s = .ok cands →
      scrape_current_page pg now s = .ok out →
      (∀ (nm : String) (r : Cand), nm ≠ "" →
        cands.find? (fun c => c.name == nm) = some r →
        out.filter (fun c => c.name == nm) = [r])
      ∧ ∀ r ∈ out, r.name ≠ "" := by
  intro pg now s cands out h1 h2
  have hout : out = dedupByName cands [] := by
    unfold scrape_current_page at h2
    rw [h1] at h2
    injection h2 with h3
    exact h3.symm
  subst hout
  constructor
  · intro nm r hnm hfind
    exact dedupByName_filter_first cands [] nm r hnm (by simp) hfind
  · intro r hr
    exact dedupByName_not_blank cands [] r hr

/-- Witness for C8: the duplicate-render page keeps exactly the first of the
two identically named records, and every kept record has a name. -/
theorem C8_witness :
    adaDupOut.filter (fun c => c.name == "Ada")
      = [buildCand { nameText := some "Ada", skillTexts := ["Engineering", "Technology"] }
          "Ada" 4 false]
    ∧ ∀ r ∈ adaDupOut, r.name ≠ "" := by
  have h := C8_dedup_first_occurrence adaDupPage 4 emptyStore adaDupCands adaDupOut rfl rfl
  exact ⟨h.1 "Ada" _ (by decide) (by decide), h.2⟩

/-- Counterexample for C8 as frozen: a page whose extraction degrades to the
name-only fallback with two empty-text name elements yields two extracted
records with identical names, and the page output contains zero records of
that name instead of exactly one. -/
theorem C8_counterexample_empty_names :
    pageCandidates emptyNamesPage 3 emptyStore = .ok [fallbackCand "" 3, fallbackCand "" 3]
    ∧ (fallbackCand "" 3).name = (fallbackCand "" 3).name
    ∧ scrape_current_page emptyNamesPage 3 emptyStore = .ok [] := by
  refine ⟨rfl, rfl, rfl⟩

/-- C9: skill extraction keeps all texts of the repeating skill selector in
order minus those equal to the section-header literals; the record carries
them exactly when the filtered list is non-empty, and on the worked example
of the specification the result is Python and Fundraising. -/
theorem C9_skills_filter :
    ∀ (c : Container) (now : Nat) (s : Store) (r : Cand),
      extract_full_candidate_info c now s = .ok (some r) →
      ((r.skills = some (c.skillTexts.filter fun t => !sectionHeaders.contains t)
          ∧ c.skillTexts.filter (fun t => !sectionHeaders.contains t) ≠ [])
        ∨ (r.skills = none ∧ c.skillTexts.filter (fun t => !sectionHeaders.contains t) = []))
      ∧ (c.skillTexts = ["Python", "Technology", "Fundraising"] →
          r.skills = some ["Python", "Fundraising"]) := by
  intro c now s r h
  unfold extract_full_candidate_info at h
  revert h
  cases hn : c.nameText with
  | none => intro h; cases h
  | some nm =>
    intro h
    have h2 : (Except.ok (if nm = "" then none
        else some (buildCand c nm now (phoneTruthy s nm))) :
        Except ExtractErr (Option Cand)) = Except.ok (some r) := h
    by_cases hnm : nm = ""
    · rw [if_pos hnm] at h2
      injection h2 with h3
      cases h3
    · rw [if_neg hnm] at h2
      injection h2 with h3
      injection h3 with h4
      subst h4
      constructor
      · by_cases hf : c.skillTexts.filter (fun t => !sectionHeaders.contains t) = []
        · right
          refine ⟨?_, hf⟩
          show (if (c.skillTexts.filter fun t => !sectionHeaders.contains t).isEmpty
            then (none : Option (List String))
            else some (c.skillTexts.filter fun t => !sectionHeaders.contains t)) = none
          rw [hf]
          rfl
        · left
          refine ⟨?_, hf⟩
          show (if (c.skillTexts.filter fun t => !sectionHeaders.contains t).isEmpty
            then (none : Option (List String))
            else some (c.skillTexts.filter fun t => !sectionHeaders.contains t))
            = some (c.skillTexts.filter fun t => !sectionHeaders.contains t)
          cases hq : c.skillTexts.filter (fun t => !sectionHeaders.contains t) with
          | nil => exact absurd hq hf
          | cons a l => rfl
      · intro hsk
        show (if (c.skillTexts.filter fun t => !sectionHeaders.contains t).isEmpty
          then (none : Option (List String))
          else some (c.skillTexts.filter fun t => !sectionHeaders.contains t))
          = some ["Python", "Fundraising"]
        rw [hsk]
        rfl

/-- Witness for C9: the worked example, extracted against the empty store. -/
theorem C9_witness :
    (buildCand pythonSkillsContainer "Ada Lovelace" 2 false).skills
      = some ["Python", "Fundraising"] := by
  have h := C9_skills_filter pythonSkillsContainer 2 emptyStore
    (buildCand pythonSkillsContainer "Ada Lovelace" 2 false) rfl
  exact h.2 rfl

/-- C10: whenever extract_phone_from_soup returns a value taken by the regex
scan, that value is the first match with at least seven decimal digits; a
returned value with fewer than seven digits can only come from the tel-link
fallback, which is consulted only when no regex match carries seven digits,
and is non-empty. -/
theorem C10_regex_phone_min_digits :
    ∀ (soup : Soup) (p : String),
      extract_phone_from_soup soup = some p →
      (7 ≤ digitCount p ∧ soup.regexMatches.find? (fun m => 7 ≤ digitCount m) = some p)
      ∨ ((∀ m ∈ soup.regexMatches, digitCount m < 7) ∧ p ≠ ""
          ∧ ∃ h ∈ soup.telHrefs, p = pyStrip (String.mk (dropTelPrefix h.data))) := by
  intro soup p h
  unfold extract_phone_from_soup at h
  revert h
  cases hf : soup.regexMatches.find? (fun m => 7 ≤ digitCount m) with
  | some m =>
    intro h
    injection h with h2
    subst h2
    left
    have hm := List.find?_some hf
    exact ⟨of_decide_eq_true hm, rfl⟩
  | none =>
    intro h
    right
    have hall : ∀ m ∈ soup.regexMatches, digitCount m < 7 := by
      intro m hm
      have hnot := List.find?_eq_none.mp hf m hm
      have h2 : ¬ 7 ≤ digitCount m := fun hle => hnot (decide_eq_true hle)
      omega
    obtain ⟨href, hmem, hsome⟩ := findSome?_exists _ soup.telHrefs p h
    have hred : (if pyStrip (String.mk (dropTelPrefix href.data)) = "" then none
        else some (pyStrip (String.mk (dropTelPrefix href.data)))) = some p := hsome
    by_cases hz : pyStrip (String.mk (dropTelPrefix href.data)) = ""
    · rw [if_pos hz] at hred
      cases hred
    · rw [if_neg hz] at hred
      injection hred with h3
      exact ⟨hall, fun he => hz (h3.trans he), href, hmem, h3.symm⟩

/-- Witness for C10: a soup whose regex scan found one ten-digit match. -/
theorem C10_witness :
    (7 ≤ digitCount "555-123-4567"
      ∧ sevenDigitSoup.regexMatches.find? (fun m => 7 ≤ digitCount m) = some "555-123-4567")
    ∨ ((∀ m ∈ sevenDigitSoup.regexMatches, digitCount m < 7) ∧ "555-123-4567" ≠ ""
        ∧ ∃ h ∈ sevenDigitSoup.telHrefs,
            "555-123-4567" = pyStrip (String.mk (dropTelPrefix h.data))) :=
  C10_regex_phone_min_digits sevenDigitSoup "555-123-4567" (by decide)
